import Mathlib

set_option maxRecDepth 20000

/-!
Verification of the k-hop chain sampler (`src/khop_chain_gen.py`).

This file gives a shallow embedding of the sampler's data model and
operations and proves the specified properties about them:

* `build_chain_object` — the chain builder (ChainBuilder).  Python list
  indexing that can raise `IndexError` is modelled by `Option`: a `none`
  result corresponds to an uncaught exception.
* `chain_signature_from_chain` — the content signature (a flattened
  heterogeneous tuple, modelled as a `List (String ⊕ Int)`).
* `has_shorter_path` / `unique_khop` — the acceptance checks.  The Cypher
  queries they issue are modelled by counting relationship-distinct
  directed walks (Cypher path semantics: relationships in a matched path
  are pairwise distinct, nodes may repeat) over an explicit edge list.
* `load_existing_state` — the startup replay of the output JSONL, over
  already-parsed records (`Record`); a failing `int()` on a chain-id
  suffix is modelled by `Option` (Python `int` is modelled on the digit
  strings the program itself writes).
* `processRow` / `processRows` / `sampleLoop` / `runK` — the per-`k`
  sampling loop of `main`.  The Neo4j `SamplePaths` query plus the
  `random.shuffle` is an external oracle, modelled by a function
  `batches : Nat → List Row` giving the (post-shuffle) candidate batch of
  each try.
-/

/-- Graph node reference as it appears inside a chain: display name and labels. -/
structure EntityRef where
  name : String
  labels : List String
deriving DecidableEq, Repr

/-- Relation reference inside a chain step: type and description. -/
structure RelationRef where
  type : String
  description : String
deriving DecidableEq, Repr

/-- One hop of a chain, as built by `build_chain_object`. -/
structure Step where
  hop : Nat
  source : EntityRef
  relation : RelationRef
  target : EntityRef
  evidence : String
  chunk_id : Int
deriving DecidableEq, Repr

/-- A chain: start/end node, ordered steps, and de-duplicated chunk references. -/
structure Chain where
  start : EntityRef
  «end» : EntityRef
  steps : List Step
  ref_chunks : List Int
deriving DecidableEq, Repr

/-- A candidate row returned by the sampling query.  The fields are the
projections the Cypher `RETURN` clause produces; `s_eid`/`t_eid` are
`Option` because the Python code reads them with `row.get`. -/
structure Row where
  s_eid : Option String
  t_eid : Option String
  s_name : Option String
  t_name : Option String
  s_labels : Option (List String)
  t_labels : Option (List String)
  node_names : List String
  node_labels : List (List String)
  rel_types : List String
  rel_descs : List String
  evidences : List String
  chunk_ids : List Int
deriving DecidableEq, Repr

/-- `ref_chunks` accumulation from `build_chain_object`:
`for cid in chunk_ids: if cid not in ref_chunks: ref_chunks.append(cid)`. -/
def refChunksOf (chunk_ids : List Int) : List Int :=
  chunk_ids.foldl (fun acc cid => if cid ∈ acc then acc else acc ++ [cid]) []

/-- One step of the builder loop: all the list indexings the Python loop body
performs at index `i`; `none` models an `IndexError`. -/
def stepAt (row : Row) (i : Nat) : Option Step :=
  match row.node_names[i]?, row.node_labels[i]?, row.rel_types[i]?, row.rel_descs[i]?,
        row.node_names[i+1]?, row.node_labels[i+1]?, row.evidences[i]?, row.chunk_ids[i]? with
  | some sn, some sl, some rt, some rd, some tn, some tl, some ev, some cid =>
      some { hop := i + 1, source := ⟨sn, sl⟩, relation := ⟨rt, rd⟩,
             target := ⟨tn, tl⟩, evidence := ev, chunk_id := cid }
  | _, _, _, _, _, _, _, _ => none

/-- The builder loop `for i in range(len(rel_types))`, aborting on the first
failed indexing. -/
def buildSteps (row : Row) : List Nat → Option (List Step)
  | [] => some []
  | i :: is =>
    match stepAt row i, buildSteps row is with
    | some s, some rest => some (s :: rest)
    | _, _ => none

/-- `build_chain_object(row)`.  Mirrors the Python function: builds the steps,
then reads `node_names[0]`, `node_labels[0]`, `node_names[-1]`,
`node_labels[-1]` for `start`/`end`; any out-of-range access yields `none`
(the uncaught `IndexError`). -/
def build_chain_object (row : Row) : Option Chain :=
  match buildSteps row (List.range row.rel_types.length),
        row.node_names[0]?, row.node_labels[0]?,
        row.node_names.getLast?, row.node_labels.getLast? with
  | some steps, some sn, some sl, some en, some el =>
      some { start := ⟨sn, sl⟩, «end» := ⟨en, el⟩, steps := steps,
             ref_chunks := refChunksOf row.chunk_ids }
  | _, _, _, _, _ => none

/-- `chain_signature_from_chain(chain)`: the ordered flattening of
`(source.name, relation.type, target.name, chunk_id)` over the steps.  The
heterogeneous Python tuple is modelled as a list over `String ⊕ Int`. -/
def chain_signature_from_chain (c : Chain) : List (String ⊕ Int) :=
  c.steps.foldl
    (fun sig st =>
      sig ++ [Sum.inl st.source.name, Sum.inl st.relation.type,
              Sum.inl st.target.name, Sum.inr st.chunk_id])
    []

/-- Specification-side first-occurrence de-duplication: keep each element's
first occurrence, drop the rest ("the chunk-id list with duplicates removed,
first occurrence kept"). -/
def dedupFirst : List Int → List Int
  | [] => []
  | x :: xs => x :: dedupFirst (xs.filter (fun y => y ≠ x))
termination_by l => l.length
decreasing_by
  simp only [List.length_cons]
  exact Nat.lt_succ_of_le (List.length_filter_le _ _)

/-!
## Graph model for the acceptance-check queries

`has_shorter_path` and `unique_khop` issue fixed-length / bounded-length
path queries against the graph.  Only `src`/`tgt` element ids, `book_id`
and the relation type take part in those queries' filters, so edges are
modelled with exactly those fields.  A matched Cypher path binds pairwise
distinct relationships (nodes may repeat), so paths are counted as
sequences of pairwise distinct edge *indices* into the edge list.
-/

/-- A directed edge of the property graph, as seen by the check queries. -/
structure GEdge where
  src : String
  tgt : String
  book_id : String
  relType : String
deriving DecidableEq, Repr

/-- The edge filter common to both check queries:
`r.book_id = $book_id AND NOT type(r) IN $exclude_rel_types`. -/
def edgeOk (book_id : String) (exclude_rel_types : List String) (e : GEdge) : Bool :=
  e.book_id == book_id && !(exclude_rel_types.contains e.relType)

/-- Number of directed paths of exactly `len` edges from node `s` to node `t`
that use pairwise distinct edges drawn from the index set `avail`, every edge
passing the filter `ok`. -/
def countTrailsFrom (g : List GEdge) (ok : GEdge → Bool) :
    Nat → String → String → List Nat → Nat
  | 0, s, t, _ => if s = t then 1 else 0
  | len + 1, s, t, avail =>
    (avail.map fun i =>
      match g[i]? with
      | some e =>
        if ok e ∧ e.src = s then countTrailsFrom g ok len e.tgt t (avail.erase i)
        else 0
      | none => 0).sum

/-- Number of directed `len`-edge paths from `s` to `t` in graph `g` under
filter `ok` (Cypher `MATCH p=(s)-[rels*len]->(t)` with the filter). -/
def countTrails (g : List GEdge) (ok : GEdge → Bool) (s t : String) (len : Nat) : Nat :=
  countTrailsFrom g ok len s t (List.range g.length)

/-- Existence of a path of some length in `[1, maxLen]` from `s` to `t`
(Cypher `MATCH p=(s)-[rels*1..maxLen]->(t) ... RETURN 1 LIMIT 1`, tested by
`len(rows) > 0`). -/
def existsTrailUpTo (g : List GEdge) (ok : GEdge → Bool) (s t : String) (maxLen : Nat) : Bool :=
  (List.range maxLen).any fun i => 0 < countTrails g ok s t (i + 1)

/-- `has_shorter_path(session, book_id, exclude_rel_types, s_eid, t_eid, k)`:
returns `False` immediately when `k <= 1`, otherwise runs the
`cypher_exists_shorter_path(k-1)` query. -/
def has_shorter_path (g : List GEdge) (book_id : String) (exclude_rel_types : List String)
    (s_eid t_eid : String) (k : Nat) : Bool :=
  if k ≤ 1 then false
  else existsTrailUpTo g (edgeOk book_id exclude_rel_types) s_eid t_eid (k - 1)

/-- `unique_khop(session, book_id, exclude_rel_types, s_eid, t_eid, k)`:
the `cypher_count_khop_paths(k)` query counts matching paths capped at 2
(`WITH p LIMIT 2 RETURN count(p)`), and the Python tests the count for
equality with 1. -/
def unique_khop (g : List GEdge) (book_id : String) (exclude_rel_types : List String)
    (s_eid t_eid : String) (k : Nat) : Bool :=
  min (countTrails g (edgeOk book_id exclude_rel_types) s_eid t_eid k) 2 == 1

/-!
## Debug query formatting (`cypher_quote`, `cypher_list_str`,
`build_full_visualize_query`)
-/

/-- Replace every occurrence of the character `pat` by the character list
`rep` (the two `str.replace` calls in `cypher_quote` have single-character
patterns).  Defined over the underlying character list so it evaluates by
kernel reduction. -/
def replaceChar (pat : Char) (rep : List Char) : List Char → List Char
  | [] => []
  | c :: cs => (if c = pat then rep else [c]) ++ replaceChar pat rep cs

/-- `cypher_quote(s)`: escape backslashes then double quotes, wrap in quotes. -/
def cypher_quote (s : String) : String :=
  "\"" ++ String.mk (replaceChar '"' ['\\', '"'] (replaceChar '\\' ['\\', '\\'] s.data)) ++ "\""

/-- `cypher_list_str(xs)`. -/
def cypher_list_str (xs : List String) : String :=
  "[" ++ String.intercalate ", " (xs.map cypher_quote) ++ "]"

/-- `build_full_visualize_query(...)` — the literal text the sampler stores in
each accepted record for manual inspection. -/
def build_full_visualize_query (k : Nat) (book_id : String)
    (exclude_rel_types : List String) (s_eid t_eid : String) : String :=
  "MATCH p=(s)-[rels*" ++ toString k ++ "]->(t)\n" ++
  "WHERE elementId(s) = " ++ cypher_quote s_eid ++ "\n" ++
  "  AND elementId(t) = " ++ cypher_quote t_eid ++ "\n" ++
  "  AND ALL(r IN rels WHERE r.book_id = " ++ cypher_quote book_id ++
    " AND NOT type(r) IN " ++ cypher_list_str exclude_rel_types ++ ")\n" ++
  "RETURN p\n" ++
  "LIMIT 1"

/-!
## Startup replay of the output JSONL (`load_existing_state`)

The JSONL file is modelled as a list of already-parsed records.  The Python
reads `it["book_id"]`, `it["k"]`, `it["meta"]`, `it.get("chain")`,
`it.get("chain_id", "")`; records the program itself writes always carry all
of these, with `k` a natural number and chain-id suffixes in decimal digits.
-/

/-- `s.startswith(pre)`, over the underlying character lists (so that it
evaluates by kernel reduction). -/
def strStartsWith (s pre : String) : Bool :=
  pre.data.isPrefixOf s.data

/-- `s[n:]` — drop the first `n` characters. -/
def strDrop (s : String) (n : Nat) : String :=
  String.mk (s.data.drop n)

/-- Python `int(s)` on the digit strings the sampler writes: `some n` when
`s` is a non-empty all-digit string, `none` (a `ValueError`) otherwise. -/
def strToNat? (s : String) : Option Nat :=
  if s.data ≠ [] ∧ s.data.all (fun c => c.isDigit) then
    some (s.data.foldl (fun n c => n * 10 + (c.toNat - '0'.toNat)) 0)
  else none

/-- The `meta` sub-object of a persisted record, as read by the replay. -/
structure RecMeta where
  s_eid : Option String
  t_eid : Option String
deriving DecidableEq, Repr

/-- A persisted chain record, as read by `load_existing_state`. -/
structure Record where
  book_id : String
  k : Nat
  meta : RecMeta
  chain : Option Chain
  chain_id : Option String
deriving DecidableEq, Repr

/-- The per-`k` dictionaries built by `load_existing_state`.  Python dicts
with defaulting reads are modelled as total functions; `max_suffix_by_k`
keeps the `Option` to distinguish an absent key from the `-1` that
`setdefault` installs.  `pair_keys` is the (shared) key set of the per-`k`
dictionaries, needed to form the union `seen_pairs_global`. -/
structure ExistingState where
  seen_pairs_by_k : Nat → Finset (String × String)
  seen_sigs_by_k : Nat → Finset (List (String ⊕ Int))
  max_suffix_by_k : Nat → Option Int
  existing_count_by_k : Nat → Nat
  pair_keys : Finset Nat

/-- The empty replay state (missing or empty output file). -/
def emptyExistingState : ExistingState :=
  { seen_pairs_by_k := fun _ => ∅
    seen_sigs_by_k := fun _ => ∅
    max_suffix_by_k := fun _ => none
    existing_count_by_k := fun _ => 0
    pair_keys := ∅ }

/-- Registration of a record's `(s_eid, t_eid)` pair into the per-`k` pair
dictionary (`if s_eid and t_eid: seen_pairs_by_k[kk].add((s_eid, t_eid))`,
with Python truthiness on the two ids). -/
def pairsUpd (st : ExistingState) (r : Record) : Nat → Finset (String × String) :=
  fun kk =>
    if kk = r.k then
      match r.meta.s_eid, r.meta.t_eid with
      | some s, some t =>
        if s ≠ "" ∧ t ≠ "" then insert (s, t) (st.seen_pairs_by_k r.k)
        else st.seen_pairs_by_k r.k
      | _, _ => st.seen_pairs_by_k r.k
    else st.seen_pairs_by_k kk

/-- Registration of a record's chain signature into the per-`k` signature
dictionary (`if chain: seen_sigs_by_k[kk].add(chain_signature_from_chain(chain))`). -/
def sigsUpd (st : ExistingState) (r : Record) : Nat → Finset (List (String ⊕ Int)) :=
  fun kk =>
    if kk = r.k then
      match r.chain with
      | some c => insert (chain_signature_from_chain c) (st.seen_sigs_by_k r.k)
      | none => st.seen_sigs_by_k r.k
    else st.seen_sigs_by_k kk

/-- The numeric chain-id suffix a record contributes for the stem
`{book_id}::k{r.k}::` — `some n` exactly when its `chain_id` is a string
starting with the stem whose remainder parses as a numeral. -/
def recordSuffix (book_id : String) (r : Record) : Option Nat :=
  match r.chain_id with
  | some cid =>
    if strStartsWith cid (book_id ++ "::k" ++ toString r.k ++ "::") then
      strToNat? (strDrop cid (book_id ++ "::k" ++ toString r.k ++ "::").length)
    else none
  | none => none

/-- Replay of a single record (one iteration of the `for line in f` loop).
Returns `none` when `int(suf)` would raise (a chain-id that starts with the
right `book_id::k{kk}::` stem but whose suffix is not a decimal numeral),
aborting the whole load as the uncaught `ValueError` would. -/
def load_step (book_id : String) (st : ExistingState) (r : Record) : Option ExistingState :=
  if r.book_id ≠ book_id then some st
  else
    let kk := r.k
    let count' := fun k' =>
      if k' = kk then st.existing_count_by_k kk + 1 else st.existing_count_by_k k'
    -- setdefault(kk, -1) on max_suffix_by_k
    let ms0 : Int := (st.max_suffix_by_k kk).getD (-1)
    let stem := book_id ++ "::k" ++ toString kk ++ "::"
    let msParsed : Option Int :=
      match r.chain_id with
      | some cid =>
        if strStartsWith cid stem then
          match strToNat? (strDrop cid stem.length) with
          | some n => some (max ms0 (n : Int))
          | none => none            -- int(suf) raises ValueError
        else some ms0
      | none => some ms0            -- default "" never startswith the stem
    match msParsed with
    | none => none
    | some ms =>
      some { seen_pairs_by_k := pairsUpd st r
             seen_sigs_by_k := sigsUpd st r
             max_suffix_by_k := fun k' => if k' = kk then some ms else st.max_suffix_by_k k'
             existing_count_by_k := count'
             pair_keys := insert kk st.pair_keys }

/-- `load_existing_state(output_jsonl, book_id)`: a single scan over the
records, skipping other books' records. -/
def load_existing_state (records : List Record) (book_id : String) : Option ExistingState :=
  records.foldlM (load_step book_id) emptyExistingState

/-- The next free chain-id index for hop count `k`:
`next_index_by_k = {kk: max_suffix_by_k.get(kk, -1) + 1 ...}` in
`load_existing_state` combined with `next_index_by_k.setdefault(k, 0)` in
`main` (an absent key yields `(-1) + 1 = 0` either way). -/
def next_index_of (es : ExistingState) (k : Nat) : Nat :=
  ((es.max_suffix_by_k k).getD (-1) + 1).toNat

/-- `seen_pairs_global = set().union(*seen_pairs_by_k.values())`. -/
def globalPairs (es : ExistingState) : Finset (String × String) :=
  es.pair_keys.biUnion es.seen_pairs_by_k

/-!
## The per-`k` sampling loop of `main`
-/

/-- The configuration fields `main` reads from `cfg["khop"]` / `cfg["run"]`
that take part in the sampling loop.  `candidate_limit`,
`min_distinct_chunks`, the label filters and the seed are only passed to the
external `SamplePaths` query / shuffle, which the loop model receives as the
pre-shuffled `batches` oracle. -/
structure Config where
  book_id : String
  num_chains : Nat
  candidate_limit : Nat
  max_sampling_tries : Nat
  enforce_no_shorter : Bool
  enforce_unique : Bool
  min_distinct_chunks : Nat
  exclude_rel_types : List String
  start_labels : List String
  end_labels : List String
deriving DecidableEq, Repr

/-- The `meta` object of an accepted item. -/
structure Meta where
  s_eid : String
  t_eid : String
  s_name : Option String
  t_name : Option String
  s_labels : Option (List String)
  t_labels : Option (List String)
deriving DecidableEq, Repr

/-- An accepted output record (the dict appended to `accepted_new_k`). -/
structure Item where
  task : String
  book_id : String
  k : Nat
  chain_id : String
  chain : Chain
  final_answer : String
  meta : Meta
  cypher_visualize_full : String
deriving DecidableEq, Repr

/-- Python `f"{n:06d}"` for a natural number: left-pad with zeros to width 6. -/
def pad6 (n : Nat) : String :=
  let s := toString n
  String.mk (List.replicate (6 - s.length) '0') ++ s

/-- The mutable state of the per-`k` loop: the dedup sets and the accepted
items of this run.  `seen_pairs_global` is written on every accept; the
membership test against it is commented out in the source, so it is never
read. -/
structure KSt where
  seen_pairs : Finset (String × String)
  seen_pairs_global : Finset (String × String)
  seen_sigs : Finset (List (String ⊕ Int))
  accepted : List Item
deriving DecidableEq

/-- The body of `for row in rows` (after the quota check): the falsy-id skip,
the pair dedup, the two acceptance checks, chain building, the signature
dedup, and the accept branch.  `none` models the uncaught `IndexError` from
`build_chain_object`. -/
def processRow (cfg : Config) (g : List GEdge) (k nextIdx : Nat)
    (row : Row) (st : KSt) : Option KSt :=
  match row.s_eid, row.t_eid with
  | some s, some t =>
    if s = "" ∨ t = "" then some st
    else if (s, t) ∈ st.seen_pairs then some st
    else if cfg.enforce_no_shorter ∧
            has_shorter_path g cfg.book_id cfg.exclude_rel_types s t k then some st
    else if cfg.enforce_unique ∧
            ¬ unique_khop g cfg.book_id cfg.exclude_rel_types s t k then some st
    else
      match build_chain_object row with
      | none => none
      | some chain =>
        let sig := chain_signature_from_chain chain
        if sig ∈ st.seen_sigs then some st
        else
          let chain_id :=
            cfg.book_id ++ "::k" ++ toString k ++ "::" ++ pad6 (nextIdx + st.accepted.length)
          let item : Item :=
            { task := "khop_chain"
              book_id := cfg.book_id
              k := k
              chain_id := chain_id
              chain := chain
              final_answer := chain.«end».name
              meta := { s_eid := s, t_eid := t,
                        s_name := row.s_name, t_name := row.t_name,
                        s_labels := row.s_labels, t_labels := row.t_labels }
              cypher_visualize_full :=
                build_full_visualize_query k cfg.book_id cfg.exclude_rel_types s t }
          some { seen_pairs := insert (s, t) st.seen_pairs
                 seen_pairs_global := insert (s, t) st.seen_pairs_global
                 seen_sigs := insert sig st.seen_sigs
                 accepted := st.accepted ++ [item] }
  | _, _ => some st

/-- `for row in rows`, with the `if len(accepted_new_k) >= num_chains: break`
guard at the top of the body. -/
def processRows (cfg : Config) (g : List GEdge) (k nextIdx : Nat) :
    List Row → KSt → Option KSt
  | [], st => some st
  | row :: rest, st =>
    if cfg.num_chains ≤ st.accepted.length then some st
    else
      match processRow cfg g k nextIdx row st with
      | none => none
      | some st' => processRows cfg g k nextIdx rest st'

/-- The `while len(accepted_new_k) < num_chains and tries < max_sampling_tries`
loop.  `fuel` is the remaining try budget (`max_sampling_tries - tries`);
`batches n` is the (post-shuffle) candidate batch of the `n`-th try
(0-indexed).  The result also returns the final value of `tries`. -/
def sampleLoop (cfg : Config) (g : List GEdge) (k nextIdx : Nat)
    (batches : Nat → List Row) : Nat → Nat → KSt → Option (KSt × Nat)
  | 0, tries, st => some (st, tries)
  | fuel + 1, tries, st =>
    if st.accepted.length < cfg.num_chains then
      let tries' := tries + 1
      let rows := batches tries
      if rows = [] then some (st, tries')       -- "No candidate paths found. Stopping this k."
      else
        match processRows cfg g k nextIdx rows st with
        | none => none
        | some st' => sampleLoop cfg g k nextIdx batches fuel tries' st'
    else some (st, tries)

/-- One full per-`k` run of `main`: replay the existing output for
`cfg.book_id`, seed the dedup state for `k` (`setdefault` of the per-`k`
entries plus the global pair union), and run the sampling loop with the full
try budget. -/
def runK (cfg : Config) (g : List GEdge) (records : List Record) (k : Nat)
    (batches : Nat → List Row) : Option (KSt × Nat) :=
  match load_existing_state records cfg.book_id with
  | none => none
  | some es =>
    sampleLoop cfg g k (next_index_of es k) batches cfg.max_sampling_tries 0
      { seen_pairs := es.seen_pairs_by_k k
        seen_pairs_global := globalPairs es
        seen_sigs := es.seen_sigs_by_k k
        accepted := [] }

/-!
## Lemmas about the chain builder
-/

/-- A throwaway default step, used only as the default of `List.getD`. -/
def defaultStep : Step :=
  { hop := 0, source := ⟨"", []⟩, relation := ⟨"", ""⟩,
    target := ⟨"", []⟩, evidence := "", chunk_id := 0 }

lemma stepAt_eq (row : Row) (i : Nat)
    (h1 : i + 1 < row.node_names.length) (h2 : i + 1 < row.node_labels.length)
    (h3 : i < row.rel_types.length) (h4 : i < row.rel_descs.length)
    (h5 : i < row.evidences.length) (h6 : i < row.chunk_ids.length) :
    stepAt row i = some
      { hop := i + 1,
        source := ⟨row.node_names.getD i "", row.node_labels.getD i []⟩,
        relation := ⟨row.rel_types.getD i "", row.rel_descs.getD i ""⟩,
        target := ⟨row.node_names.getD (i+1) "", row.node_labels.getD (i+1) []⟩,
        evidence := row.evidences.getD i "",
        chunk_id := row.chunk_ids.getD i 0 } := by
  unfold stepAt
  rw [List.getElem?_eq_getElem (by omega : i < row.node_names.length),
      List.getElem?_eq_getElem (by omega : i < row.node_labels.length),
      List.getElem?_eq_getElem h3,
      List.getElem?_eq_getElem h4, List.getElem?_eq_getElem h1,
      List.getElem?_eq_getElem h2, List.getElem?_eq_getElem h5,
      List.getElem?_eq_getElem h6]
  simp [List.getD_eq_getElem?_getD, List.getElem?_eq_getElem,
        h1, h2, h3, h4, h5, h6, Nat.lt_of_succ_lt h1, Nat.lt_of_succ_lt h2]

lemma stepAt_isSome_mp (row : Row) (i : Nat) (h : (stepAt row i).isSome) :
    i + 1 < row.node_names.length ∧ i + 1 < row.node_labels.length ∧
    i < row.rel_types.length ∧ i < row.rel_descs.length ∧
    i < row.evidences.length ∧ i < row.chunk_ids.length := by
  unfold stepAt at h
  cases h1 : row.node_names[i]? <;> rw [h1] at h
  case none => simp at h
  cases h2 : row.node_labels[i]? <;> rw [h2] at h
  case none => simp at h
  cases h3 : row.rel_types[i]? <;> rw [h3] at h
  case none => simp at h
  cases h4 : row.rel_descs[i]? <;> rw [h4] at h
  case none => simp at h
  cases h5 : row.node_names[i+1]? <;> rw [h5] at h
  case none => simp at h
  cases h6 : row.node_labels[i+1]? <;> rw [h6] at h
  case none => simp at h
  cases h7 : row.evidences[i]? <;> rw [h7] at h
  case none => simp at h
  cases h8 : row.chunk_ids[i]? <;> rw [h8] at h
  case none => simp at h
  obtain ⟨b5, -⟩ := List.getElem?_eq_some.mp h5
  obtain ⟨b6, -⟩ := List.getElem?_eq_some.mp h6
  obtain ⟨b3, -⟩ := List.getElem?_eq_some.mp h3
  obtain ⟨b4, -⟩ := List.getElem?_eq_some.mp h4
  obtain ⟨b7, -⟩ := List.getElem?_eq_some.mp h7
  obtain ⟨b8, -⟩ := List.getElem?_eq_some.mp h8
  exact ⟨b5, b6, b3, b4, b7, b8⟩

lemma stepAt_isSome_iff (row : Row) (i : Nat) :
    (stepAt row i).isSome ↔
      i + 1 < row.node_names.length ∧ i + 1 < row.node_labels.length ∧
      i < row.rel_types.length ∧ i < row.rel_descs.length ∧
      i < row.evidences.length ∧ i < row.chunk_ids.length := by
  refine ⟨stepAt_isSome_mp row i, fun ⟨h1, h2, h3, h4, h5, h6⟩ => ?_⟩
  rw [stepAt_eq row i h1 h2 h3 h4 h5 h6]
  rfl

lemma buildSteps_sound (row : Row) :
    ∀ (is : List Nat) (l : List Step), buildSteps row is = some l →
      l.length = is.length ∧ ∀ j : Nat, (is[j]?.bind (stepAt row)) = l[j]?
  | [], l => by
    intro h
    simp only [buildSteps, Option.some.injEq] at h
    subst h
    simp
  | i :: is, l => by
    intro h
    simp only [buildSteps] at h
    cases h1 : stepAt row i with
    | none => rw [h1] at h; exact absurd h (by simp)
    | some s =>
      rw [h1] at h
      cases h2 : buildSteps row is with
      | none => rw [h2] at h; exact absurd h (by simp)
      | some rest =>
        rw [h2] at h
        simp only [Option.some.injEq] at h
        subst h
        obtain ⟨hlen, hget⟩ := buildSteps_sound row is rest h2
        refine ⟨by simp [hlen], fun j => ?_⟩
        cases j with
        | zero => simp [h1]
        | succ j => simpa using hget j

lemma buildSteps_isSome (row : Row) :
    ∀ is : List Nat, (∀ i ∈ is, (stepAt row i).isSome) → (buildSteps row is).isSome
  | [], _ => by simp [buildSteps]
  | i :: is, h => by
    have h1 : (stepAt row i).isSome := h i (by simp)
    have h2 : (buildSteps row is).isSome :=
      buildSteps_isSome row is (fun j hj => h j (by simp [hj]))
    obtain ⟨s, hs⟩ := Option.isSome_iff_exists.mp h1
    obtain ⟨rest, hrest⟩ := Option.isSome_iff_exists.mp h2
    simp [buildSteps, hs, hrest]

lemma build_chain_object_parts (row : Row) (c : Chain)
    (h : build_chain_object row = some c) :
    (∃ l, buildSteps row (List.range row.rel_types.length) = some l ∧ c.steps = l) ∧
    c.ref_chunks = refChunksOf row.chunk_ids ∧
    row.node_names ≠ [] ∧ row.node_labels ≠ [] ∧
    c.start = ⟨row.node_names.getD 0 "", row.node_labels.getD 0 []⟩ ∧
    c.«end» = ⟨(row.node_names.getLast?).getD "", (row.node_labels.getLast?).getD []⟩ := by
  unfold build_chain_object at h
  cases h0 : buildSteps row (List.range row.rel_types.length) with
  | none => rw [h0] at h; exact absurd h (by simp)
  | some l =>
    rw [h0] at h
    cases h1 : row.node_names[0]? with
    | none => rw [h1] at h; exact absurd h (by simp)
    | some sn =>
      rw [h1] at h
      cases h2 : row.node_labels[0]? with
      | none => rw [h2] at h; exact absurd h (by simp)
      | some sl =>
        rw [h2] at h
        cases h3 : row.node_names.getLast? with
        | none => rw [h3] at h; exact absurd h (by simp)
        | some en =>
          rw [h3] at h
          cases h4 : row.node_labels.getLast? with
          | none => rw [h4] at h; exact absurd h (by simp)
          | some el =>
            rw [h4] at h
            simp only [Option.some.injEq] at h
            subst h
            have hn : row.node_names ≠ [] := by
              intro hnil; rw [hnil] at h1; simp at h1
            have hl : row.node_labels ≠ [] := by
              intro hnil; rw [hnil] at h2; simp at h2
            refine ⟨⟨l, rfl, rfl⟩, rfl, hn, hl, ?_, ?_⟩
            · have : (0 : Nat) < row.node_names.length := List.length_pos.mpr hn
              have h2' : (0 : Nat) < row.node_labels.length := List.length_pos.mpr hl
              rw [List.getElem?_eq_getElem this] at h1
              rw [List.getElem?_eq_getElem h2'] at h2
              simp only [Option.some.injEq] at h1 h2
              simp [List.getD_eq_getElem?_getD, List.getElem?_eq_getElem, this, h2', h1, h2]
            · simp [h3, h4]

lemma getD_of_lt {α : Type _} (l : List α) (i : Nat) (d : α) (h : i < l.length) :
    l.getD i d = l[i] := by
  simp [List.getD_eq_getElem?_getD, List.getElem?_eq_getElem h]

/-- **C3.**  For every candidate row whose `rel_types` list has length `k` and
whose `node_names`/`node_labels` lists have length `k+1` — together with the
other three per-edge lists having length `k`, which every row returned by the
sampling query satisfies since all five are projections of the same `rels`
path variable — the chain built from it has exactly `k` steps, the steps are
1-indexed by `hop`, each step's `target` equals the next step's `source`
(both name and labels), the chain's `start` is the first node, and its `end`
is the last node. -/
theorem chain_steps_contiguous (row : Row) (k : Nat)
    (hrt : row.rel_types.length = k)
    (hnn : row.node_names.length = k + 1)
    (hnl : row.node_labels.length = k + 1)
    (hrd : row.rel_descs.length = k)
    (hev : row.evidences.length = k)
    (hci : row.chunk_ids.length = k) :
    ∃ c, build_chain_object row = some c ∧
      c.steps.length = k ∧
      (∀ i, i < k → (c.steps.getD i defaultStep).hop = i + 1) ∧
      (∀ i, i + 1 < k →
        (c.steps.getD i defaultStep).target = (c.steps.getD (i+1) defaultStep).source) ∧
      c.start = ⟨row.node_names.getD 0 "", row.node_labels.getD 0 []⟩ ∧
      c.«end» = ⟨row.node_names.getD k "", row.node_labels.getD k []⟩ := by
  have hany : ∀ i ∈ List.range k, (stepAt row i).isSome := by
    intro i hi
    rw [List.mem_range] at hi
    rw [stepAt_isSome_iff]
    omega
  have hb : (buildSteps row (List.range row.rel_types.length)).isSome := by
    rw [hrt]; exact buildSteps_isSome row _ hany
  obtain ⟨l, hl⟩ := Option.isSome_iff_exists.mp hb
  obtain ⟨hlen, hget⟩ := buildSteps_sound row _ l hl
  rw [List.length_range, hrt] at hlen
  have hn0 : (0 : Nat) < row.node_names.length := by omega
  have hl0 : (0 : Nat) < row.node_labels.length := by omega
  have hnne : row.node_names ≠ [] := List.length_pos.mp hn0
  have hlne : row.node_labels ≠ [] := List.length_pos.mp hl0
  have hstep : ∀ i, i < k → l.getD i defaultStep =
      { hop := i + 1,
        source := ⟨row.node_names.getD i "", row.node_labels.getD i []⟩,
        relation := ⟨row.rel_types.getD i "", row.rel_descs.getD i ""⟩,
        target := ⟨row.node_names.getD (i+1) "", row.node_labels.getD (i+1) []⟩,
        evidence := row.evidences.getD i "",
        chunk_id := row.chunk_ids.getD i 0 } := by
    intro i hi
    have hr := hget i
    rw [hrt, List.getElem?_range hi] at hr
    simp only [Option.some_bind] at hr
    rw [stepAt_eq row i (by omega) (by omega) (by omega) (by omega) (by omega) (by omega)] at hr
    rw [List.getD_eq_getElem?_getD, ← hr]
    rfl
  refine ⟨{ start := ⟨row.node_names.getD 0 "", row.node_labels.getD 0 []⟩,
            «end» := ⟨row.node_names.getD k "", row.node_labels.getD k []⟩,
            steps := l, ref_chunks := refChunksOf row.chunk_ids }, ?_, hlen, ?_, ?_, rfl, rfl⟩
  · unfold build_chain_object
    rw [hl, List.getElem?_eq_getElem hn0, List.getElem?_eq_getElem hl0,
        List.getLast?_eq_getLast _ hnne, List.getLast?_eq_getLast _ hlne]
    have e1 : row.node_names.getLast hnne = row.node_names.getD k "" := by
      rw [List.getLast_eq_getElem, getD_of_lt _ _ _ (by omega)]
      congr 1
      omega
    have e2 : row.node_labels.getLast hlne = row.node_labels.getD k [] := by
      rw [List.getLast_eq_getElem, getD_of_lt _ _ _ (by omega)]
      congr 1
      omega
    rw [e1, e2, getD_of_lt _ _ _ hn0, getD_of_lt _ _ _ hl0]
  · intro i hi
    rw [hstep i hi]
  · intro i hi
    rw [hstep i (by omega), hstep (i+1) hi]

/-!
## `ref_chunks` is first-occurrence de-duplication
-/

lemma mem_dedupFirst (y : Int) : ∀ l : List Int, y ∈ dedupFirst l ↔ y ∈ l := by
  intro l
  induction l using dedupFirst.induct with
  | case1 => simp [dedupFirst]
  | case2 x xs ih =>
    rw [dedupFirst]
    by_cases hyx : y = x
    · subst hyx; simp
    · simp only [List.mem_cons, ih, List.mem_filter]
      simp [hyx]

lemma dedupFirst_sublist : ∀ l : List Int, (dedupFirst l).Sublist l := by
  intro l
  induction l using dedupFirst.induct with
  | case1 => simp [dedupFirst]
  | case2 x xs ih =>
    rw [dedupFirst]
    exact List.Sublist.cons₂ x (ih.trans (List.filter_sublist xs))

lemma dedupFirst_nodup : ∀ l : List Int, (dedupFirst l).Nodup := by
  intro l
  induction l using dedupFirst.induct with
  | case1 => simp [dedupFirst]
  | case2 x xs ih =>
    rw [dedupFirst]
    refine List.nodup_cons.mpr ⟨?_, ih⟩
    rw [mem_dedupFirst]
    simp [List.mem_filter]

lemma refChunks_go : ∀ (l acc : List Int),
    l.foldl (fun acc cid => if cid ∈ acc then acc else acc ++ [cid]) acc
      = acc ++ dedupFirst (l.filter (fun y => y ∉ acc))
  | [], acc => by simp [dedupFirst]
  | x :: xs, acc => by
    rw [List.foldl_cons]
    by_cases hx : x ∈ acc
    · rw [if_pos hx, refChunks_go xs acc]
      have : (x :: xs).filter (fun y => y ∉ acc) = xs.filter (fun y => y ∉ acc) := by
        rw [List.filter_cons]
        simp [hx]
      rw [this]
    · rw [if_neg hx, refChunks_go xs (acc ++ [x])]
      have h1 : (x :: xs).filter (fun y => y ∉ acc) = x :: xs.filter (fun y => y ∉ acc) := by
        rw [List.filter_cons]
        simp [hx]
      have h2 : xs.filter (fun y => y ∉ acc ++ [x])
          = (xs.filter (fun y => y ∉ acc)).filter (fun y => y ≠ x) := by
        rw [List.filter_filter]
        refine List.filter_congr ?_
        intro y _
        by_cases hya : y ∈ acc <;> by_cases hyx : y = x <;> simp [hya, hyx]
      rw [h1, dedupFirst, h2]
      simp

lemma refChunksOf_eq_dedupFirst (l : List Int) : refChunksOf l = dedupFirst l := by
  have h := refChunks_go l []
  have hf : l.filter (fun y => y ∉ ([] : List Int)) = l :=
    List.filter_eq_self.mpr (by simp)
  rw [hf] at h
  simpa [refChunksOf] using h

/-- **C8.**  For every candidate row on which the builder succeeds, the built
chain's `ref_chunks` is the row's `chunk_ids` list with duplicates removed
keeping the first occurrence: it equals the first-occurrence de-duplication
of `chunk_ids`, contains no duplicates, is an (order-preserving) sublist of
`chunk_ids`, and has exactly the members of `chunk_ids`. -/
theorem ref_chunks_first_occurrence (row : Row) (c : Chain)
    (h : build_chain_object row = some c) :
    c.ref_chunks = dedupFirst row.chunk_ids ∧
    c.ref_chunks.Nodup ∧
    c.ref_chunks.Sublist row.chunk_ids ∧
    (∀ x : Int, x ∈ c.ref_chunks ↔ x ∈ row.chunk_ids) := by
  obtain ⟨-, hrc, -⟩ := build_chain_object_parts row c h
  rw [hrc, refChunksOf_eq_dedupFirst]
  exact ⟨rfl, dedupFirst_nodup _, dedupFirst_sublist _, fun x => mem_dedupFirst x _⟩

/-!
## Length behaviour of the chain builder (no malformed-candidate check)
-/

/-- A candidate row with three nodes but only one edge
(`len(node_names) = 3 ≠ len(rel_types) + 1 = 2`). -/
def rowCoerced : Row :=
  { s_eid := some "a", t_eid := some "b",
    s_name := some "A", t_name := some "C",
    s_labels := some ["P"], t_labels := some ["P"],
    node_names := ["A", "B", "C"],
    node_labels := [["P"], ["P"], ["P"]],
    rel_types := ["R"], rel_descs := ["d"], evidences := ["e"], chunk_ids := [1] }

/-- **C7 — counterexample.**  The chain builder does not fail on a candidate
row whose node-list length differs from its edge-list length plus 1: on
`rowCoerced` (3 nodes, 1 edge) it silently returns a chain rather than
signalling any error. -/
theorem build_chain_object_coerces_long_rows :
    rowCoerced.node_names.length = 3 ∧ rowCoerced.rel_types.length + 1 = 2 ∧
    (build_chain_object rowCoerced).isSome = true := by
  refine ⟨rfl, rfl, ?_⟩
  rfl

/-- **C7 — amended.**  `build_chain_object` performs no node/edge count
validation and signals no `MalformedCandidate` error.  For a row whose
per-edge lists are at least as long as `rel_types` and whose label list is as
long as its name list, the builder succeeds exactly when the node list has at
least `len(rel_types) + 1` entries — in particular a node list *longer* than
`len(rel_types) + 1` is silently coerced into a chain with
`len(rel_types)` steps — and when the node list is shorter the builder fails
with an index error (an uncaught exception aborting the run, modelled by
`none`), not a per-candidate skip. -/
theorem build_chain_object_length_behavior (row : Row)
    (hnl : row.node_labels.length = row.node_names.length)
    (hrd : row.rel_types.length ≤ row.rel_descs.length)
    (hev : row.rel_types.length ≤ row.evidences.length)
    (hci : row.rel_types.length ≤ row.chunk_ids.length) :
    ((build_chain_object row).isSome ↔ row.rel_types.length + 1 ≤ row.node_names.length) ∧
    (∀ c, build_chain_object row = some c → c.steps.length = row.rel_types.length) := by
  constructor
  · constructor
    · intro h
      obtain ⟨c, hc⟩ := Option.isSome_iff_exists.mp h
      obtain ⟨⟨l, hl, -⟩, -, hnne, -, -, -⟩ := build_chain_object_parts row c hc
      obtain ⟨hlen, hget⟩ := buildSteps_sound row _ l hl
      rw [List.length_range] at hlen
      cases hn : row.rel_types.length with
      | zero => have := List.length_pos.mpr hnne; omega
      | succ m =>
        have hr := hget m
        rw [hn, List.getElem?_range (Nat.lt_succ_self m)] at hr
        simp only [Option.some_bind] at hr
        have : (stepAt row m).isSome := by
          rw [hr]
          rw [List.getElem?_eq_getElem (by omega)]
          rfl
        have := (stepAt_isSome_mp row m this).1
        omega
    · intro hle
      have hany : ∀ i ∈ List.range row.rel_types.length, (stepAt row i).isSome := by
        intro i hi
        rw [List.mem_range] at hi
        rw [stepAt_isSome_iff]
        omega
      have hb := buildSteps_isSome row _ hany
      obtain ⟨l, hl⟩ := Option.isSome_iff_exists.mp hb
      have hn0 : (0 : Nat) < row.node_names.length := by omega
      have hl0 : (0 : Nat) < row.node_labels.length := by omega
      unfold build_chain_object
      rw [hl, List.getElem?_eq_getElem hn0, List.getElem?_eq_getElem hl0,
          List.getLast?_eq_getLast _ (List.length_pos.mp hn0),
          List.getLast?_eq_getLast _ (List.length_pos.mp hl0)]
      rfl
  · intro c hc
    obtain ⟨⟨l, hl, hcl⟩, -⟩ := build_chain_object_parts row c hc
    obtain ⟨hlen, -⟩ := buildSteps_sound row _ l hl
    rw [List.length_range] at hlen
    rw [hcl, hlen]

/-- Witness for the amended C7 theorem: instantiated at `rowCoerced`, whose
node list (3 names) is longer than `rel_types + 1 = 2`, the builder succeeds
and produces a single-step chain. -/
theorem build_chain_object_length_behavior_witness :
    ((build_chain_object rowCoerced).isSome ↔ rowCoerced.rel_types.length + 1 ≤ rowCoerced.node_names.length) ∧
    (∀ c, build_chain_object rowCoerced = some c → c.steps.length = rowCoerced.rel_types.length) :=
  build_chain_object_length_behavior rowCoerced rfl (by decide) (by decide) (by decide)

/-- A well-formed 2-hop candidate row with a repeated chunk id. -/
def rowDup : Row :=
  { s_eid := some "a", t_eid := some "c",
    s_name := some "A", t_name := some "C",
    s_labels := some ["P"], t_labels := some ["R"],
    node_names := ["A", "B", "C"],
    node_labels := [["P"], ["Q"], ["R"]],
    rel_types := ["R1", "R2"], rel_descs := ["d1", "d2"],
    evidences := ["e1", "e2"], chunk_ids := [5, 5] }

/-- The chain the builder produces for `rowDup`. -/
def chainDup : Chain :=
  { start := ⟨"A", ["P"]⟩, «end» := ⟨"C", ["R"]⟩,
    steps := [
      { hop := 1, source := ⟨"A", ["P"]⟩, relation := ⟨"R1", "d1"⟩,
        target := ⟨"B", ["Q"]⟩, evidence := "e1", chunk_id := 5 },
      { hop := 2, source := ⟨"B", ["Q"]⟩, relation := ⟨"R2", "d2"⟩,
        target := ⟨"C", ["R"]⟩, evidence := "e2", chunk_id := 5 }],
    ref_chunks := [5] }

/-- Witness for C3: the contiguity theorem applied to the concrete 2-hop row
`rowDup`. -/
theorem chain_steps_contiguous_witness :
    ∃ c, build_chain_object rowDup = some c ∧
      c.steps.length = 2 ∧
      (∀ i, i < 2 → (c.steps.getD i defaultStep).hop = i + 1) ∧
      (∀ i, i + 1 < 2 →
        (c.steps.getD i defaultStep).target = (c.steps.getD (i+1) defaultStep).source) ∧
      c.start = ⟨rowDup.node_names.getD 0 "", rowDup.node_labels.getD 0 []⟩ ∧
      c.«end» = ⟨rowDup.node_names.getD 2 "", rowDup.node_labels.getD 2 []⟩ :=
  chain_steps_contiguous rowDup 2 rfl rfl rfl rfl rfl rfl

/-- Witness for C8: the `ref_chunks` theorem applied to `rowDup`, whose
repeated chunk id 5 is kept once. -/
theorem ref_chunks_first_occurrence_witness :
    chainDup.ref_chunks = dedupFirst rowDup.chunk_ids ∧
    chainDup.ref_chunks.Nodup ∧
    chainDup.ref_chunks.Sublist rowDup.chunk_ids ∧
    (∀ x : Int, x ∈ chainDup.ref_chunks ↔ x ∈ rowDup.chunk_ids) :=
  ref_chunks_first_occurrence rowDup chainDup (by rfl)

/-!
## Invariants of the per-`k` sampling loop
-/

/-- The endpoint pair recorded in an accepted item's `meta`. -/
def pairOf (it : Item) : String × String := (it.meta.s_eid, it.meta.t_eid)

/-- The content signature of an accepted item's chain. -/
def sigOf (it : Item) : List (String ⊕ Int) := chain_signature_from_chain it.chain

/-- A throwaway default item, used only as the default of `List.getD`. -/
def defaultItem : Item :=
  { task := "", book_id := "", k := 0, chain_id := "",
    chain := { start := ⟨"", []⟩, «end» := ⟨"", []⟩, steps := [], ref_chunks := [] },
    final_answer := "",
    meta := { s_eid := "", t_eid := "", s_name := none,
              t_name := none, s_labels := none, t_labels := none },
    cypher_visualize_full := "" }

/-- The invariant the loop maintains over its state, relative to the seeded
dedup sets `seedP`/`seedS` and the starting chain-id index `nextIdx`. -/
def LoopInv (cfg : Config) (g : List GEdge) (k nextIdx : Nat)
    (seedP : Finset (String × String)) (seedS : Finset (List (String ⊕ Int)))
    (st : KSt) : Prop :=
  (∀ it ∈ st.accepted, pairOf it ∈ st.seen_pairs) ∧
  (∀ it ∈ st.accepted, sigOf it ∈ st.seen_sigs) ∧
  List.Pairwise (fun a b => pairOf a ≠ pairOf b) st.accepted ∧
  List.Pairwise (fun a b => sigOf a ≠ sigOf b) st.accepted ∧
  (∀ it ∈ st.accepted, pairOf it ∉ seedP) ∧
  (∀ it ∈ st.accepted, sigOf it ∉ seedS) ∧
  seedP ⊆ st.seen_pairs ∧
  seedS ⊆ st.seen_sigs ∧
  st.accepted.length ≤ cfg.num_chains ∧
  (∀ i, i < st.accepted.length →
    (st.accepted.getD i defaultItem).chain_id
      = cfg.book_id ++ "::k" ++ toString k ++ "::" ++ pad6 (nextIdx + i)) ∧
  (∀ it ∈ st.accepted, cfg.enforce_no_shorter = true →
    has_shorter_path g cfg.book_id cfg.exclude_rel_types it.meta.s_eid it.meta.t_eid k = false) ∧
  (∀ it ∈ st.accepted, cfg.enforce_unique = true →
    unique_khop g cfg.book_id cfg.exclude_rel_types it.meta.s_eid it.meta.t_eid k = true)

lemma processRow_inv (cfg : Config) (g : List GEdge) (k nextIdx : Nat)
    (seedP : Finset (String × String)) (seedS : Finset (List (String ⊕ Int)))
    (row : Row) (st st' : KSt)
    (hinv : LoopInv cfg g k nextIdx seedP seedS st)
    (hq : st.accepted.length < cfg.num_chains)
    (hp : processRow cfg g k nextIdx row st = some st') :
    LoopInv cfg g k nextIdx seedP seedS st' := by
  obtain ⟨i1, i2, i3, i4, i5, i6, i7, i8, i9, i10, i11, i12⟩ := hinv
  have keep : LoopInv cfg g k nextIdx seedP seedS st :=
    ⟨i1, i2, i3, i4, i5, i6, i7, i8, i9, i10, i11, i12⟩
  unfold processRow at hp
  split at hp
  case h_2 => exact Option.some.inj hp ▸ keep
  case h_1 s t hs ht =>
    by_cases hfalsy : s = "" ∨ t = ""
    · rw [if_pos hfalsy] at hp
      exact Option.some.inj hp ▸ keep
    rw [if_neg hfalsy] at hp
    by_cases hseen : (s, t) ∈ st.seen_pairs
    · rw [if_pos hseen] at hp
      exact Option.some.inj hp ▸ keep
    rw [if_neg hseen] at hp
    by_cases hshort : cfg.enforce_no_shorter = true ∧
        has_shorter_path g cfg.book_id cfg.exclude_rel_types s t k = true
    · rw [if_pos hshort] at hp
      exact Option.some.inj hp ▸ keep
    rw [if_neg hshort] at hp
    by_cases huniq : cfg.enforce_unique = true ∧
        ¬ unique_khop g cfg.book_id cfg.exclude_rel_types s t k = true
    · rw [if_pos huniq] at hp
      exact Option.some.inj hp ▸ keep
    rw [if_neg huniq] at hp
    cases hb : build_chain_object row with
    | none => rw [hb] at hp; exact absurd hp (by simp)
    | some chain =>
      rw [hb] at hp
      simp only at hp
      by_cases hsig : chain_signature_from_chain chain ∈ st.seen_sigs
      · rw [if_pos hsig] at hp
        exact Option.some.inj hp ▸ keep
      rw [if_neg hsig] at hp
      simp only [Option.some.injEq] at hp
      subst hp
      refine ⟨?_, ?_, ?_, ?_, ?_, ?_, ?_, ?_, ?_, ?_, ?_, ?_⟩
      · intro it hit
        rcases List.mem_append.mp hit with hold | hnew
        · exact Finset.mem_insert_of_mem (i1 it hold)
        · simp only [List.mem_singleton] at hnew
          subst hnew
          exact Finset.mem_insert_self _ _
      · intro it hit
        rcases List.mem_append.mp hit with hold | hnew
        · exact Finset.mem_insert_of_mem (i2 it hold)
        · simp only [List.mem_singleton] at hnew
          subst hnew
          exact Finset.mem_insert_self _ _
      · rw [List.pairwise_append]
        refine ⟨i3, by simp, ?_⟩
        intro a ha b hb'
        simp only [List.mem_singleton] at hb'
        subst hb'
        intro hcontra
        have heqp : pairOf a = (s, t) := hcontra
        exact hseen (heqp ▸ i1 a ha)
      · rw [List.pairwise_append]
        refine ⟨i4, by simp, ?_⟩
        intro a ha b hb'
        simp only [List.mem_singleton] at hb'
        subst hb'
        intro hcontra
        have heqs : sigOf a = chain_signature_from_chain chain := hcontra
        exact hsig (heqs ▸ i2 a ha)
      · intro it hit
        rcases List.mem_append.mp hit with hold | hnew
        · exact i5 it hold
        · simp only [List.mem_singleton] at hnew
          subst hnew
          exact fun hmem => hseen (i7 hmem)
      · intro it hit
        rcases List.mem_append.mp hit with hold | hnew
        · exact i6 it hold
        · simp only [List.mem_singleton] at hnew
          subst hnew
          exact fun hmem => hsig (i8 hmem)
      · exact i7.trans (Finset.subset_insert _ _)
      · exact i8.trans (Finset.subset_insert _ _)
      · simpa using hq
      · intro i hi
        simp only [List.length_append, List.length_singleton] at hi
        rcases Nat.lt_or_ge i st.accepted.length with hlt | hge
        · rw [List.getD_eq_getElem?_getD, List.getElem?_append_left hlt,
             ← List.getD_eq_getElem?_getD]
          exact i10 i hlt
        · have hieq : i = st.accepted.length := by omega
          subst hieq
          rw [List.getD_eq_getElem?_getD, List.getElem?_concat_length]
          rfl
      · intro it hit henf
        rcases List.mem_append.mp hit with hold | hnew
        · exact i11 it hold henf
        · simp only [List.mem_singleton] at hnew
          subst hnew
          simp only
          by_cases hval : has_shorter_path g cfg.book_id cfg.exclude_rel_types s t k = true
          · exact absurd ⟨henf, hval⟩ hshort
          · simpa using hval
      · intro it hit henf
        rcases List.mem_append.mp hit with hold | hnew
        · exact i12 it hold henf
        · simp only [List.mem_singleton] at hnew
          subst hnew
          simp only
          by_cases hval : unique_khop g cfg.book_id cfg.exclude_rel_types s t k = true
          · exact hval
          · exact absurd ⟨henf, hval⟩ huniq

lemma processRows_inv (cfg : Config) (g : List GEdge) (k nextIdx : Nat)
    (seedP : Finset (String × String)) (seedS : Finset (List (String ⊕ Int))) :
    ∀ (rows : List Row) (st st' : KSt),
      LoopInv cfg g k nextIdx seedP seedS st →
      processRows cfg g k nextIdx rows st = some st' →
      LoopInv cfg g k nextIdx seedP seedS st'
  | [], st, st', hinv, hp => by
    simp only [processRows, Option.some.injEq] at hp
    exact hp ▸ hinv
  | row :: rest, st, st', hinv, hp => by
    simp only [processRows] at hp
    by_cases hquota : cfg.num_chains ≤ st.accepted.length
    · rw [if_pos hquota] at hp
      exact Option.some.inj hp ▸ hinv
    · rw [if_neg hquota] at hp
      cases hr : processRow cfg g k nextIdx row st with
      | none => rw [hr] at hp; exact absurd hp (by simp)
      | some st'' =>
        rw [hr] at hp
        exact processRows_inv cfg g k nextIdx seedP seedS rest st'' st'
          (processRow_inv cfg g k nextIdx seedP seedS row st st'' hinv (by omega) hr) hp

lemma sampleLoop_inv (cfg : Config) (g : List GEdge) (k nextIdx : Nat)
    (seedP : Finset (String × String)) (seedS : Finset (List (String ⊕ Int)))
    (batches : Nat → List Row) :
    ∀ (fuel tries : Nat) (st st' : KSt) (tr : Nat),
      LoopInv cfg g k nextIdx seedP seedS st →
      sampleLoop cfg g k nextIdx batches fuel tries st = some (st', tr) →
      LoopInv cfg g k nextIdx seedP seedS st'
  | 0, tries, st, st', tr, hinv, hp => by
    simp only [sampleLoop, Option.some.injEq, Prod.mk.injEq] at hp
    exact hp.1 ▸ hinv
  | fuel + 1, tries, st, st', tr, hinv, hp => by
    simp only [sampleLoop] at hp
    by_cases hlt : st.accepted.length < cfg.num_chains
    · rw [if_pos hlt] at hp
      by_cases hempty : batches tries = []
      · rw [if_pos hempty] at hp
        simp only [Option.some.injEq, Prod.mk.injEq] at hp
        exact hp.1 ▸ hinv
      · rw [if_neg hempty] at hp
        cases hr : processRows cfg g k nextIdx (batches tries) st with
        | none => rw [hr] at hp; exact absurd hp (by simp)
        | some st'' =>
          rw [hr] at hp
          exact sampleLoop_inv cfg g k nextIdx seedP seedS batches fuel (tries + 1) st'' st' tr
            (processRows_inv cfg g k nextIdx seedP seedS (batches tries) st st'' hinv hr) hp
    · rw [if_neg hlt] at hp
      simp only [Option.some.injEq, Prod.mk.injEq] at hp
      exact hp.1 ▸ hinv

/-- The final try counter: bounded by the budget, and if the quota is unmet
the loop either used its whole budget or stopped on an empty batch. -/
lemma sampleLoop_budget (cfg : Config) (g : List GEdge) (k nextIdx : Nat)
    (batches : Nat → List Row) :
    ∀ (fuel tries : Nat) (st st' : KSt) (tr : Nat),
      sampleLoop cfg g k nextIdx batches fuel tries st = some (st', tr) →
      tries ≤ tr ∧ tr ≤ tries + fuel ∧
      (st'.accepted.length < cfg.num_chains →
        tr = tries + fuel ∨ (tries < tr ∧ batches (tr - 1) = []))
  | 0, tries, st, st', tr, hp => by
    simp only [sampleLoop, Option.some.injEq, Prod.mk.injEq] at hp
    obtain ⟨-, rfl⟩ := hp
    exact ⟨le_refl _, by omega, fun _ => Or.inl (by omega)⟩
  | fuel + 1, tries, st, st', tr, hp => by
    simp only [sampleLoop] at hp
    by_cases hlt : st.accepted.length < cfg.num_chains
    · rw [if_pos hlt] at hp
      by_cases hempty : batches tries = []
      · rw [if_pos hempty] at hp
        simp only [Option.some.injEq, Prod.mk.injEq] at hp
        obtain ⟨-, rfl⟩ := hp
        refine ⟨by omega, by omega, fun _ => Or.inr ⟨by omega, ?_⟩⟩
        simpa using hempty
      · rw [if_neg hempty] at hp
        cases hr : processRows cfg g k nextIdx (batches tries) st with
        | none => rw [hr] at hp; exact absurd hp (by simp)
        | some st'' =>
          rw [hr] at hp
          obtain ⟨hle1, hle2, hquota⟩ :=
            sampleLoop_budget cfg g k nextIdx batches fuel (tries + 1) st'' st' tr hp
          refine ⟨by omega, by omega, fun hq => ?_⟩
          rcases hquota hq with heq | ⟨hgt, hb⟩
          · exact Or.inl (by omega)
          · exact Or.inr ⟨by omega, hb⟩
    · rw [if_neg hlt] at hp
      simp only [Option.some.injEq, Prod.mk.injEq] at hp
      obtain ⟨rfl, rfl⟩ := hp
      exact ⟨le_refl _, by omega, fun hq => absurd hq hlt⟩

/-- Every completed per-`k` run satisfies the loop invariant relative to the
state replayed from the existing output records. -/
lemma runK_master (cfg : Config) (g : List GEdge) (records : List Record) (k : Nat)
    (batches : Nat → List Row) (st : KSt) (tries : Nat)
    (h : runK cfg g records k batches = some (st, tries)) :
    ∃ es, load_existing_state records cfg.book_id = some es ∧
      LoopInv cfg g k (next_index_of es k) (es.seen_pairs_by_k k) (es.seen_sigs_by_k k) st := by
  unfold runK at h
  cases hload : load_existing_state records cfg.book_id with
  | none => rw [hload] at h; exact absurd h (by simp)
  | some es =>
    rw [hload] at h
    refine ⟨es, rfl, ?_⟩
    refine sampleLoop_inv cfg g k (next_index_of es k) (es.seen_pairs_by_k k)
      (es.seen_sigs_by_k k) batches cfg.max_sampling_tries 0 _ st tries ?_ h
    exact ⟨by simp, by simp, by simp, by simp, by simp, by simp,
           fun x hx => hx, fun x hx => hx, by simp, by simp, by simp, by simp⟩

/-!
## Lemmas about the startup replay
-/

lemma pairsUpd_sub (st : ExistingState) (r : Record) (kk : Nat) :
    st.seen_pairs_by_k kk ⊆ pairsUpd st r kk := by
  intro x hx
  unfold pairsUpd
  by_cases hk : kk = r.k
  · subst hk
    rw [if_pos rfl]
    cases r.meta.s_eid with
    | none => exact hx
    | some s =>
      cases r.meta.t_eid with
      | none => exact hx
      | some t =>
        show x ∈
          if s ≠ "" ∧ t ≠ "" then insert (s, t) (st.seen_pairs_by_k r.k)
          else st.seen_pairs_by_k r.k
        split_ifs
        · exact Finset.mem_insert_of_mem hx
        · exact hx
  · rw [if_neg hk]; exact hx

lemma pairsUpd_mem (st : ExistingState) (r : Record) (s t : String)
    (hs : r.meta.s_eid = some s) (ht : r.meta.t_eid = some t)
    (hs0 : s ≠ "") (ht0 : t ≠ "") :
    (s, t) ∈ pairsUpd st r r.k := by
  unfold pairsUpd
  rw [if_pos rfl, hs, ht]
  show (s, t) ∈
    if s ≠ "" ∧ t ≠ "" then insert (s, t) (st.seen_pairs_by_k r.k)
    else st.seen_pairs_by_k r.k
  rw [if_pos ⟨hs0, ht0⟩]
  exact Finset.mem_insert_self _ _

lemma sigsUpd_sub (st : ExistingState) (r : Record) (kk : Nat) :
    st.seen_sigs_by_k kk ⊆ sigsUpd st r kk := by
  intro x hx
  unfold sigsUpd
  by_cases hk : kk = r.k
  · subst hk
    cases r.chain <;> simp only [if_pos rfl]
    · exact hx
    · exact Finset.mem_insert_of_mem hx
  · rw [if_neg hk]; exact hx

lemma sigsUpd_mem (st : ExistingState) (r : Record) (c : Chain) (hc : r.chain = some c) :
    chain_signature_from_chain c ∈ sigsUpd st r r.k := by
  unfold sigsUpd
  rw [if_pos rfl, hc]
  exact Finset.mem_insert_self _ _

/-- Case analysis of a successful single-record replay step. -/
lemma load_step_some (book : String) (st : ExistingState) (r : Record) (st' : ExistingState)
    (h : load_step book st r = some st') :
    (r.book_id ≠ book ∧ st' = st) ∨
    (r.book_id = book ∧
      st'.seen_pairs_by_k = pairsUpd st r ∧
      st'.seen_sigs_by_k = sigsUpd st r ∧
      ((st'.max_suffix_by_k r.k).getD (-1) =
        match recordSuffix book r with
        | some n => max ((st.max_suffix_by_k r.k).getD (-1)) (n : Int)
        | none => (st.max_suffix_by_k r.k).getD (-1)) ∧
      (∀ kk, kk ≠ r.k → st'.max_suffix_by_k kk = st.max_suffix_by_k kk)) := by
  by_cases hbook : r.book_id = book
  · right
    refine ⟨hbook, ?_⟩
    unfold load_step at h
    rw [if_neg (by simp [hbook])] at h
    simp only at h
    cases hcid : r.chain_id with
    | none =>
      rw [hcid] at h
      simp only [Option.some.injEq] at h
      subst h
      refine ⟨rfl, rfl, ?_, fun kk hkk => by simp [hkk]⟩
      simp [recordSuffix, hcid]
    | some cid =>
      simp only [hcid] at h
      by_cases hsw : strStartsWith cid (book ++ "::k" ++ toString r.k ++ "::")
      · rw [if_pos hsw] at h
        cases hparse : strToNat? (strDrop cid (book ++ "::k" ++ toString r.k ++ "::").length) with
        | none =>
          simp only [hparse] at h
          exact absurd h (by simp)
        | some n =>
          simp only [hparse, Option.some.injEq] at h
          subst h
          refine ⟨rfl, rfl, ?_, fun kk hkk => by simp [hkk]⟩
          have hrs : recordSuffix book r = some n := by
            simp only [recordSuffix, hcid]
            rw [if_pos hsw, hparse]
          rw [hrs]
          simp
      · rw [if_neg hsw] at h
        simp only [Option.some.injEq] at h
        subst h
        refine ⟨rfl, rfl, ?_, fun kk hkk => by simp [hkk]⟩
        simp [recordSuffix, hcid, hsw]
  · left
    unfold load_step at h
    rw [if_pos hbook] at h
    exact ⟨hbook, (Option.some.inj h).symm⟩

/-- Replay over a record list is monotone on the dedup dictionaries. -/
lemma load_fold_mono (book : String) :
    ∀ (records : List Record) (st st' : ExistingState),
      records.foldlM (load_step book) st = some st' →
      ∀ kk, st.seen_pairs_by_k kk ⊆ st'.seen_pairs_by_k kk ∧
            st.seen_sigs_by_k kk ⊆ st'.seen_sigs_by_k kk
  | [], st, st', h => by
    simp only [List.foldlM_nil, Option.pure_def, Option.some.injEq] at h
    subst h
    exact fun kk => ⟨fun x hx => hx, fun x hx => hx⟩
  | r :: rest, st, st', h => by
    simp only [List.foldlM_cons] at h
    cases h1 : load_step book st r with
    | none => rw [h1] at h; exact absurd h (by simp)
    | some st1 =>
      rw [h1] at h
      simp only [Option.bind_eq_bind, Option.some_bind] at h
      have hrest := load_fold_mono book rest st1 st' h
      intro kk
      rcases load_step_some book st r st1 h1 with ⟨-, rfl⟩ | ⟨-, hpe, hse, -, -⟩
      · exact hrest kk
      · constructor
        · exact (hpe ▸ pairsUpd_sub st r kk).trans (hrest kk).1
        · exact (hse ▸ sigsUpd_sub st r kk).trans (hrest kk).2

/-- Every pair and signature of a replayed record for the target book ends up
registered in the final replay state under that record's `k`. -/
lemma load_fold_complete (book : String) :
    ∀ (records : List Record) (st st' : ExistingState),
      records.foldlM (load_step book) st = some st' →
      ∀ r ∈ records, r.book_id = book →
        (∀ s t, r.meta.s_eid = some s → r.meta.t_eid = some t → s ≠ "" → t ≠ "" →
          (s, t) ∈ st'.seen_pairs_by_k r.k) ∧
        (∀ c, r.chain = some c →
          chain_signature_from_chain c ∈ st'.seen_sigs_by_k r.k)
  | [], st, st', h => by simp
  | r :: rest, st, st', h => by
    simp only [List.foldlM_cons] at h
    cases h1 : load_step book st r with
    | none => rw [h1] at h; exact absurd h (by simp)
    | some st1 =>
      rw [h1] at h
      simp only [Option.bind_eq_bind, Option.some_bind] at h
      intro r' hr' hbook'
      rcases List.mem_cons.mp hr' with rfl | hmem
      · rcases load_step_some book st r' st1 h1 with ⟨hne, -⟩ | ⟨-, hpe, hse, -, -⟩
        · exact absurd hbook' hne
        · constructor
          · intro s t hs ht hs0 ht0
            exact (load_fold_mono book rest st1 st' h r'.k).1
              (hpe ▸ pairsUpd_mem st r' s t hs ht hs0 ht0)
          · intro c hc
            exact (load_fold_mono book rest st1 st' h r'.k).2
              (hse ▸ sigsUpd_mem st r' c hc)
      · exact load_fold_complete book rest st1 st' h r' hmem hbook'

/-- The numeric suffixes contributed by the pre-existing records of a given
`(book_id, k)`, in file order. -/
def suffixesFor (records : List Record) (book_id : String) (k : Nat) : List Nat :=
  (records.filter (fun r => r.book_id == book_id && r.k == k)).filterMap (recordSuffix book_id)

/-- "One greater than the maximum numeric suffix found among pre-existing
records for that `book_id` and `k`, or 0 if no such record exists" — the
fold starts at `-1`, so an empty suffix list yields `0`. -/
def specNextIndex (records : List Record) (book_id : String) (k : Nat) : Nat :=
  ((suffixesFor records book_id k).foldl (fun a n => max a (n : Int)) (-1) + 1).toNat

lemma load_fold_max (book : String) (k : Nat) :
    ∀ (records : List Record) (st st' : ExistingState),
      records.foldlM (load_step book) st = some st' →
      (st'.max_suffix_by_k k).getD (-1) =
        (suffixesFor records book k).foldl (fun a n => max a (n : Int))
          ((st.max_suffix_by_k k).getD (-1))
  | [], st, st', h => by
    simp only [List.foldlM_nil, Option.pure_def, Option.some.injEq] at h
    subst h
    simp [suffixesFor]
  | r :: rest, st, st', h => by
    simp only [List.foldlM_cons] at h
    cases h1 : load_step book st r with
    | none => rw [h1] at h; exact absurd h (by simp)
    | some st1 =>
      rw [h1] at h
      simp only [Option.bind_eq_bind, Option.some_bind] at h
      have hrest := load_fold_max book k rest st1 st' h
      rcases load_step_some book st r st1 h1 with ⟨hne, rfl⟩ | ⟨hbook, -, -, hmax, hmax'⟩
      · have : suffixesFor (r :: rest) book k = suffixesFor rest book k := by
          unfold suffixesFor
          rw [List.filter_cons]
          simp [hne]
        rw [this, hrest]
      · by_cases hk : r.k = k
        · subst hk
          have hfil : suffixesFor (r :: rest) book r.k
              = match recordSuffix book r with
                | some n => n :: suffixesFor rest book r.k
                | none => suffixesFor rest book r.k := by
            unfold suffixesFor
            rw [List.filter_cons]
            simp only [hbook, beq_self_eq_true, Bool.and_self, if_pos]
            rw [List.filterMap_cons]
            cases recordSuffix book r <;> simp
          rw [hrest, hmax]
          cases hrs : recordSuffix book r <;> (rw [hrs] at hfil; rw [hfil]; try simp)
        · have : suffixesFor (r :: rest) book k = suffixesFor rest book k := by
            unfold suffixesFor
            rw [List.filter_cons]
            have : (r.k == k) = false := by simp [hk]
            simp [this]
          rw [this, hrest, hmax' k (fun hkk => hk hkk.symm)]

/-- For a successful replay, the next free chain index for `k` is one greater
than the maximum suffix among the replayed records of `(book_id, k)` (0 when
there is none). -/
lemma next_index_of_eq_spec (records : List Record) (book : String) (k : Nat)
    (es : ExistingState) (h : load_existing_state records book = some es) :
    next_index_of es k = specNextIndex records book k := by
  unfold next_index_of specNextIndex
  rw [load_fold_max book k records emptyExistingState es h]
  rfl

/-!
## Claim theorems about the sampling loop
-/

lemma has_shorter_path_false_counts (g : List GEdge) (book : String)
    (ex : List String) (s t : String) (k : Nat) (hk : 2 ≤ k)
    (h : has_shorter_path g book ex s t k = false) :
    ∀ L, 1 ≤ L → L + 1 ≤ k → countTrails g (edgeOk book ex) s t L = 0 := by
  intro L h1 h2
  unfold has_shorter_path at h
  rw [if_neg (by omega)] at h
  unfold existsTrailUpTo at h
  rw [List.any_eq_false] at h
  have := h (L - 1) (List.mem_range.mpr (by omega))
  have hL : L - 1 + 1 = L := by omega
  rw [hL] at this
  simpa using this

lemma unique_khop_eq_one (g : List GEdge) (book : String) (ex : List String)
    (s t : String) (k : Nat) (h : unique_khop g book ex s t k = true) :
    countTrails g (edgeOk book ex) s t k = 1 := by
  unfold unique_khop at h
  rw [beq_iff_eq] at h
  omega

/-- **C1.**  In any completed per-`k` run, no two accepted chains share an
endpoint pair `(s_eid, t_eid)`, and no accepted chain's pair equals the pair
of any record previously persisted for the same `(book_id, k)` (the pairs
replayed into the dedup state before the run). -/
theorem accepted_pairs_unique (cfg : Config) (g : List GEdge) (records : List Record)
    (k : Nat) (batches : Nat → List Row) (st : KSt) (tries : Nat)
    (h : runK cfg g records k batches = some (st, tries)) :
    List.Pairwise (fun a b => pairOf a ≠ pairOf b) st.accepted ∧
    (∀ it ∈ st.accepted, ∀ r ∈ records, r.book_id = cfg.book_id → r.k = k →
      ∀ s t, r.meta.s_eid = some s → r.meta.t_eid = some t → s ≠ "" → t ≠ "" →
        pairOf it ≠ (s, t)) := by
  obtain ⟨es, hload, hinv⟩ := runK_master cfg g records k batches st tries h
  obtain ⟨-, -, i3, -, i5, -⟩ := hinv
  refine ⟨i3, ?_⟩
  intro it hit r hr hbook hk s t hs ht hs0 ht0 heq
  have hmem : (s, t) ∈ es.seen_pairs_by_k r.k :=
    ((load_fold_complete cfg.book_id records emptyExistingState es hload r hr hbook).1
      s t hs ht hs0 ht0)
  rw [hk] at hmem
  exact i5 it hit (heq ▸ hmem)

/-- **C2.**  In any completed per-`k` run, no two accepted chains have equal
content signatures, and no accepted chain's signature equals the signature of
a chain previously persisted for the same `(book_id, k)` — even when the
endpoint-id pairs differ. -/
theorem accepted_sigs_unique (cfg : Config) (g : List GEdge) (records : List Record)
    (k : Nat) (batches : Nat → List Row) (st : KSt) (tries : Nat)
    (h : runK cfg g records k batches = some (st, tries)) :
    List.Pairwise (fun a b => sigOf a ≠ sigOf b) st.accepted ∧
    (∀ it ∈ st.accepted, ∀ r ∈ records, r.book_id = cfg.book_id → r.k = k →
      ∀ c, r.chain = some c → sigOf it ≠ chain_signature_from_chain c) := by
  obtain ⟨es, hload, hinv⟩ := runK_master cfg g records k batches st tries h
  obtain ⟨-, -, -, i4, -, i6, -⟩ := hinv
  refine ⟨i4, ?_⟩
  intro it hit r hr hbook hk c hc heq
  have hmem : chain_signature_from_chain c ∈ es.seen_sigs_by_k r.k :=
    ((load_fold_complete cfg.book_id records emptyExistingState es hload r hr hbook).2 c hc)
  rw [hk] at hmem
  exact i6 it hit (heq ▸ hmem)

/-- **C4.**  In any completed per-`k` run, the `i`-th accepted chain's
`chain_id` is `{book_id}::k{k}::` followed by the 6-digit zero-padded value
of `specNextIndex + i`, where `specNextIndex` is one greater than the
maximum numeric suffix among pre-existing records of that `(book_id, k)` (0
when no such record exists); the indices are therefore consecutive with no
gaps. -/
theorem chain_ids_consecutive (cfg : Config) (g : List GEdge) (records : List Record)
    (k : Nat) (batches : Nat → List Row) (st : KSt) (tries : Nat)
    (h : runK cfg g records k batches = some (st, tries)) :
    ∀ i, i < st.accepted.length →
      (st.accepted.getD i defaultItem).chain_id
        = cfg.book_id ++ "::k" ++ toString k ++ "::"
          ++ pad6 (specNextIndex records cfg.book_id k + i) := by
  obtain ⟨es, hload, hinv⟩ := runK_master cfg g records k batches st tries h
  obtain ⟨-, -, -, -, -, -, -, -, -, i10, -⟩ := hinv
  intro i hi
  rw [i10 i hi, next_index_of_eq_spec records cfg.book_id k es hload]

/-- **C5.**  In any completed per-`k` run with `enforce_no_shorter_path` set,
no accepted chain's endpoint pair is connected by any directed path of length
between 1 and `k-1` using edges of the same book with non-excluded types; and
for `k = 1` the check `has_shorter_path` returns `False` unconditionally
(without consulting the graph). -/
theorem shorter_path_rejection (cfg : Config) (g : List GEdge) (records : List Record)
    (k : Nat) (batches : Nat → List Row) (st : KSt) (tries : Nat)
    (h : runK cfg g records k batches = some (st, tries)) :
    (∀ it ∈ st.accepted, cfg.enforce_no_shorter = true → ∀ L, 1 ≤ L → L + 1 ≤ k →
      countTrails g (edgeOk cfg.book_id cfg.exclude_rel_types)
        it.meta.s_eid it.meta.t_eid L = 0) ∧
    (∀ (g' : List GEdge) (b : String) (ex : List String) (s t : String),
      has_shorter_path g' b ex s t 1 = false) := by
  obtain ⟨es, hload, hinv⟩ := runK_master cfg g records k batches st tries h
  obtain ⟨-, -, -, -, -, -, -, -, -, -, i11, -⟩ := hinv
  constructor
  · intro it hit henf L h1 h2
    exact has_shorter_path_false_counts g cfg.book_id cfg.exclude_rel_types
      it.meta.s_eid it.meta.t_eid k (by omega) (i11 it hit henf) L h1 h2
  · intro g' b ex s t
    rfl

/-- **C6.**  In any completed per-`k` run with `enforce_unique_khop_path`
set, every accepted chain's endpoint pair is connected by exactly one
directed `k`-edge path (edges of the book with non-excluded types); in
particular no pair with two or more distinct `k`-edge paths is ever
accepted. -/
theorem unique_path_rejection (cfg : Config) (g : List GEdge) (records : List Record)
    (k : Nat) (batches : Nat → List Row) (st : KSt) (tries : Nat)
    (h : runK cfg g records k batches = some (st, tries)) :
    (∀ it ∈ st.accepted, cfg.enforce_unique = true →
      countTrails g (edgeOk cfg.book_id cfg.exclude_rel_types)
        it.meta.s_eid it.meta.t_eid k = 1) ∧
    (∀ it ∈ st.accepted, cfg.enforce_unique = true →
      ¬ 2 ≤ countTrails g (edgeOk cfg.book_id cfg.exclude_rel_types)
        it.meta.s_eid it.meta.t_eid k) := by
  obtain ⟨es, hload, hinv⟩ := runK_master cfg g records k batches st tries h
  obtain ⟨-, -, -, -, -, -, -, -, -, -, -, i12⟩ := hinv
  have hone : ∀ it ∈ st.accepted, cfg.enforce_unique = true →
      countTrails g (edgeOk cfg.book_id cfg.exclude_rel_types)
        it.meta.s_eid it.meta.t_eid k = 1 := by
    intro it hit henf
    exact unique_khop_eq_one g cfg.book_id cfg.exclude_rel_types
      it.meta.s_eid it.meta.t_eid k (i12 it hit henf)
  exact ⟨hone, fun it hit henf => by rw [hone it hit henf]; omega⟩

/-- **C9.**  The per-`k` loop runs at most `max_sampling_tries` tries and
accepts at most `num_chains` chains (scanning stops once the quota is
reached); if the quota is unmet the run either used its whole try budget or
its last try returned an empty batch; and a try whose batch is empty
terminates the loop immediately with the state unchanged, counting exactly
one try. -/
theorem sampling_loop_budget (cfg : Config) (g : List GEdge) (records : List Record)
    (k : Nat) (batches : Nat → List Row) (st : KSt) (tries : Nat)
    (h : runK cfg g records k batches = some (st, tries)) :
    tries ≤ cfg.max_sampling_tries ∧
    st.accepted.length ≤ cfg.num_chains ∧
    (st.accepted.length < cfg.num_chains →
      tries = cfg.max_sampling_tries ∨ (0 < tries ∧ batches (tries - 1) = [])) ∧
    (∀ ni fuel t st₀, st₀.accepted.length < cfg.num_chains → batches t = [] →
      sampleLoop cfg g k ni batches (fuel + 1) t st₀ = some (st₀, t + 1)) := by
  obtain ⟨es, hload, hinv⟩ := runK_master cfg g records k batches st tries h
  obtain ⟨-, -, -, -, -, -, -, -, i9, -⟩ := hinv
  unfold runK at h
  rw [hload] at h
  obtain ⟨-, hle, hquota⟩ := sampleLoop_budget cfg g k (next_index_of es k) batches
    cfg.max_sampling_tries 0 _ st tries h
  refine ⟨by omega, i9, fun hq => ?_, fun ni fuel t st₀ hlt hempty => ?_⟩
  · rcases hquota hq with heq | hcase
    · exact Or.inl (by omega)
    · exact Or.inr hcase
  · simp [sampleLoop, hlt, hempty]

/-- **C10.**  The pair-level dedup test is on the ordered tuple: a row whose
endpoint pair is the reverse `(t, s)` of an already-registered pair `(s, t)`
is not blocked by the pair check — if it passes the remaining checks and the
quota is open, it is accepted. -/
theorem pair_dedup_order_sensitive (cfg : Config) (g : List GEdge) (k nextIdx : Nat)
    (st : KSt) (row : Row) (s t : String) (c : Chain)
    (hq : st.accepted.length < cfg.num_chains)
    (_hfwd : (s, t) ∈ st.seen_pairs)
    (hrev : (t, s) ∉ st.seen_pairs)
    (hse : row.s_eid = some t) (hte : row.t_eid = some s)
    (ht0 : t ≠ "") (hs0 : s ≠ "")
    (hns : cfg.enforce_no_shorter = true →
      has_shorter_path g cfg.book_id cfg.exclude_rel_types t s k = false)
    (hu : cfg.enforce_unique = true →
      unique_khop g cfg.book_id cfg.exclude_rel_types t s k = true)
    (hb : build_chain_object row = some c)
    (hsig : chain_signature_from_chain c ∉ st.seen_sigs) :
    ∃ st', processRows cfg g k nextIdx [row] st = some st' ∧
      st'.accepted.length = st.accepted.length + 1 ∧
      ∃ it, st'.accepted.getLast? = some it ∧
        it.meta.s_eid = t ∧ it.meta.t_eid = s := by
  have hrow : processRow cfg g k nextIdx row st = some
      { seen_pairs := insert (t, s) st.seen_pairs
        seen_pairs_global := insert (t, s) st.seen_pairs_global
        seen_sigs := insert (chain_signature_from_chain c) st.seen_sigs
        accepted := st.accepted ++
          [{ task := "khop_chain"
             book_id := cfg.book_id
             k := k
             chain_id := cfg.book_id ++ "::k" ++ toString k ++ "::"
               ++ pad6 (nextIdx + st.accepted.length)
             chain := c
             final_answer := c.«end».name
             meta := { s_eid := t, t_eid := s,
                       s_name := row.s_name, t_name := row.t_name,
                       s_labels := row.s_labels, t_labels := row.t_labels }
             cypher_visualize_full :=
               build_full_visualize_query k cfg.book_id cfg.exclude_rel_types t s }] } := by
    unfold processRow
    simp only [hse, hte]
    rw [if_neg (by simp [ht0, hs0])]
    rw [if_neg hrev]
    rw [if_neg (by
      intro hcontra
      rw [hns hcontra.1] at hcontra
      exact absurd hcontra.2 (by simp))]
    rw [if_neg (by
      intro hcontra
      exact hcontra.2 (hu hcontra.1))]
    rw [hb]
    simp only
    rw [if_neg hsig]
  have hrows : processRows cfg g k nextIdx [row] st = some
      { seen_pairs := insert (t, s) st.seen_pairs
        seen_pairs_global := insert (t, s) st.seen_pairs_global
        seen_sigs := insert (chain_signature_from_chain c) st.seen_sigs
        accepted := st.accepted ++
          [{ task := "khop_chain"
             book_id := cfg.book_id
             k := k
             chain_id := cfg.book_id ++ "::k" ++ toString k ++ "::"
               ++ pad6 (nextIdx + st.accepted.length)
             chain := c
             final_answer := c.«end».name
             meta := { s_eid := t, t_eid := s,
                       s_name := row.s_name, t_name := row.t_name,
                       s_labels := row.s_labels, t_labels := row.t_labels }
             cypher_visualize_full :=
               build_full_visualize_query k cfg.book_id cfg.exclude_rel_types t s }] } := by
    unfold processRows
    rw [if_neg (by omega), hrow]
    simp only [processRows]
  exact ⟨_, hrows, by simp, ⟨_, List.getLast?_concat _, rfl, rfl⟩⟩

/-!
## Concrete run used by the witnesses

A 2-edge graph `a → b → c` for book `"bk"`, one pre-existing record with
chain-id suffix 4, and a single batch containing the candidate row
`rowDup` (`a → b → c`).  Both acceptance checks are on.
-/

def cfgW : Config :=
  { book_id := "bk", num_chains := 2, candidate_limit := 10, max_sampling_tries := 3,
    enforce_no_shorter := true, enforce_unique := true, min_distinct_chunks := 1,
    exclude_rel_types := [], start_labels := [], end_labels := [] }

def gW : List GEdge :=
  [{ src := "a", tgt := "b", book_id := "bk", relType := "R1" },
   { src := "b", tgt := "c", book_id := "bk", relType := "R2" }]

def recW : Record :=
  { book_id := "bk", k := 2, meta := { s_eid := some "x", t_eid := some "y" },
    chain := none, chain_id := some "bk::k2::000004" }

def batchesW : Nat → List Row := fun n => if n = 0 then [rowDup] else []

/-- The completed run: one accepted chain, two tries (the second batch is
empty). -/
def outW : KSt × Nat :=
  (runK cfgW gW [recW] 2 batchesW).getD (⟨∅, ∅, ∅, []⟩, 0)

def stW : KSt := outW.1

def triesW : Nat := outW.2

lemma runW_eq : runK cfgW gW [recW] 2 batchesW = some (stW, triesW) := by decide

/-- Witness for C1 at the concrete run. -/
theorem accepted_pairs_unique_witness :
    List.Pairwise (fun a b => pairOf a ≠ pairOf b) stW.accepted ∧
    (∀ it ∈ stW.accepted, ∀ r ∈ [recW], r.book_id = cfgW.book_id → r.k = 2 →
      ∀ s t, r.meta.s_eid = some s → r.meta.t_eid = some t → s ≠ "" → t ≠ "" →
        pairOf it ≠ (s, t)) :=
  accepted_pairs_unique cfgW gW [recW] 2 batchesW stW triesW runW_eq

/-- Witness for C2 at the concrete run. -/
theorem accepted_sigs_unique_witness :
    List.Pairwise (fun a b => sigOf a ≠ sigOf b) stW.accepted ∧
    (∀ it ∈ stW.accepted, ∀ r ∈ [recW], r.book_id = cfgW.book_id → r.k = 2 →
      ∀ c, r.chain = some c → sigOf it ≠ chain_signature_from_chain c) :=
  accepted_sigs_unique cfgW gW [recW] 2 batchesW stW triesW runW_eq

/-- Witness for C4 at the concrete run: the single accepted chain continues
from suffix 4 of the pre-existing record, receiving index 5. -/
theorem chain_ids_consecutive_witness :
    0 < stW.accepted.length ∧
    (stW.accepted.getD 0 defaultItem).chain_id
      = cfgW.book_id ++ "::k" ++ toString 2 ++ "::"
        ++ pad6 (specNextIndex [recW] cfgW.book_id 2 + 0) :=
  ⟨by decide, chain_ids_consecutive cfgW gW [recW] 2 batchesW stW triesW runW_eq 0 (by decide)⟩

/-- Witness for C5 at the concrete run. -/
theorem shorter_path_rejection_witness :
    (∀ it ∈ stW.accepted, cfgW.enforce_no_shorter = true → ∀ L, 1 ≤ L → L + 1 ≤ 2 →
      countTrails gW (edgeOk cfgW.book_id cfgW.exclude_rel_types)
        it.meta.s_eid it.meta.t_eid L = 0) ∧
    (∀ (g' : List GEdge) (b : String) (ex : List String) (s t : String),
      has_shorter_path g' b ex s t 1 = false) :=
  shorter_path_rejection cfgW gW [recW] 2 batchesW stW triesW runW_eq

/-- Witness for C6 at the concrete run. -/
theorem unique_path_rejection_witness :
    (∀ it ∈ stW.accepted, cfgW.enforce_unique = true →
      countTrails gW (edgeOk cfgW.book_id cfgW.exclude_rel_types)
        it.meta.s_eid it.meta.t_eid 2 = 1) ∧
    (∀ it ∈ stW.accepted, cfgW.enforce_unique = true →
      ¬ 2 ≤ countTrails gW (edgeOk cfgW.book_id cfgW.exclude_rel_types)
        it.meta.s_eid it.meta.t_eid 2) :=
  unique_path_rejection cfgW gW [recW] 2 batchesW stW triesW runW_eq

/-- Witness for C9 at the concrete run. -/
theorem sampling_loop_budget_witness :
    triesW ≤ cfgW.max_sampling_tries ∧
    stW.accepted.length ≤ cfgW.num_chains ∧
    (stW.accepted.length < cfgW.num_chains →
      triesW = cfgW.max_sampling_tries ∨ (0 < triesW ∧ batchesW (triesW - 1) = [])) ∧
    (∀ ni fuel t st₀, st₀.accepted.length < cfgW.num_chains → batchesW t = [] →
      sampleLoop cfgW gW 2 ni batchesW (fuel + 1) t st₀ = some (st₀, t + 1)) :=
  sampling_loop_budget cfgW gW [recW] 2 batchesW stW triesW runW_eq

/-- A loop state that has already accepted the forward pair `("c", "a")`. -/
def stC10 : KSt :=
  { seen_pairs := {("c", "a")}, seen_pairs_global := ∅, seen_sigs := ∅, accepted := [] }

/-- Witness for C10: with `("c", "a")` registered, the reversed row
`a → … → c` is still accepted. -/
theorem pair_dedup_order_sensitive_witness :
    ∃ st', processRows cfgW gW 2 0 [rowDup] stC10 = some st' ∧
      st'.accepted.length = stC10.accepted.length + 1 ∧
      ∃ it, st'.accepted.getLast? = some it ∧
        it.meta.s_eid = "a" ∧ it.meta.t_eid = "c" :=
  pair_dedup_order_sensitive cfgW gW 2 0 stC10 rowDup "c" "a" chainDup
    (by decide) (by decide) (by decide) rfl rfl (by decide) (by decide)
    (fun _ => by decide) (fun _ => by decide) rfl (by decide)
